import Mathlib

/-!
Shallow embedding of the WeChat article batch-summarizer pipeline
(`WeChatUrlExtractorService`, `DeepSeekService`, and the
`POST /api/batch-summarize` route) in Lean 4.

Strings are modelled as `List Char`; JavaScript runtime primitives used by
the source (the `\s` character class, `String.prototype.trim`,
`String.prototype.substring`, regex replace/match, the WHATWG `URL`
constructor) are embedded explicitly below, each next to the source
operation that relies on it.
-/

namespace WeChatSummarizer

/-- The JavaScript whitespace class: members of `\s` in ECMAScript regular
expressions, which coincides with the set trimmed by `String.prototype.trim`
(WhiteSpace ∪ LineTerminator). -/
def jsIsWs (c : Char) : Bool :=
  c = ' ' || c = '\t' || c = '\n' || c = '\r' || c.toNat = 0x0b || c.toNat = 0x0c ||
  c.toNat = 0x00a0 || c.toNat = 0x1680 ||
  (0x2000 ≤ c.toNat && c.toNat ≤ 0x200a) ||
  c.toNat = 0x2028 || c.toNat = 0x2029 || c.toNat = 0x202f || c.toNat = 0x205f ||
  c.toNat = 0x3000 || c.toNat = 0xfeff

/-- Drop trailing JS whitespace (the `trimEnd` half of `String.prototype.trim`). -/
def dropTrailingWs (l : List Char) : List Char :=
  (l.reverse.dropWhile jsIsWs).reverse

/-- Embeds `String.prototype.trim`: drop leading and trailing JS whitespace. -/
def jsTrim (l : List Char) : List Char :=
  dropTrailingWs (l.dropWhile jsIsWs)

/-- Worker for `replace(/\s+/g, ' ')`: the Boolean state records whether the
previous character belonged to a whitespace run (in which case further
whitespace characters of the same run are dropped). Each maximal run of JS
whitespace becomes a single `' '`. -/
def collapseGo : Bool → List Char → List Char
  | _, [] => []
  | inRun, c :: cs =>
    if jsIsWs c then
      if inRun then collapseGo true cs else ' ' :: collapseGo true cs
    else c :: collapseGo false cs

/-- Embeds `content.replace(/\s+/g, ' ')` from `cleanContent`. -/
def collapseWs (l : List Char) : List Char := collapseGo false l

/-- Index of the last `'\n'` of a list, if any. -/
def lastNewlineIdx : List Char → Option Nat
  | [] => none
  | c :: cs =>
    match lastNewlineIdx cs with
    | some i => some (i + 1)
    | none => if c = '\n' then some 0 else none

/-- At a position whose first character was `'\n'` with remainder `cs`, the
greedy match of `\n\s*\n` consumes up to (and including) the last `'\n'`
inside the whitespace run that follows; this returns the index of that
closing `'\n'` in `cs`, or `none` when the regex does not match here. -/
def blankRunEnd (cs : List Char) : Option Nat :=
  lastNewlineIdx (cs.takeWhile jsIsWs)

/-- Fuel-indexed worker for `replace(/\n\s*\n/g, '\n\n')`: scans left to
right; at a `'\n'` beginning a match the whole match is replaced by two
newlines and scanning resumes after it, mirroring a global regex replace.
The fuel equals the input length at the top-level call, so the
fuel-exhausted branch is never reached. -/
def normBlankGo : Nat → List Char → List Char
  | _, [] => []
  | 0, l => l
  | fuel + 1, c :: cs =>
    if c = '\n' then
      match blankRunEnd cs with
      | some i => '\n' :: '\n' :: normBlankGo fuel (cs.drop (i + 1))
      | none => c :: normBlankGo fuel cs
    else c :: normBlankGo fuel cs

/-- Embeds `content.replace(/\n\s*\n/g, '\n\n')` from `cleanContent`. -/
def normalizeBlank (l : List Char) : List Char := normBlankGo l.length l

/-- Embeds `maxContentLength` of `WeChatUrlExtractorService`. -/
def maxContentLength : Nat := 15000

/-- Embeds `WeChatUrlExtractorService.cleanContent`:
`content.replace(/\s+/g, ' ').replace(/\n\s*\n/g, '\n\n').trim().substring(0, 15000)`. -/
def cleanContent (content : List Char) : List Char :=
  ((normalizeBlank (collapseWs content)) |> jsTrim).take maxContentLength

/-- The constructor arguments of a JavaScript `new Date(year, monthIndex, day)`
call. `monthIndex` is an `Int` because the source computes `parseInt(m) - 1`,
which is `-1` when the matched month text is `"0"`. A value of this type also
stands for an arbitrary `Date` (such as `new Date()`, the current time) where
one is needed. -/
structure JsDate where
  year : Nat
  monthIndex : Int
  day : Nat
deriving DecidableEq

/-- Embeds `ExtractedWeChatArticle` from `WeChatUrlExtractorService`. `author` is
`none` on the failure-entry paths, which never set the field. -/
structure ExtractedWeChatArticle where
  url : List Char
  title : List Char
  content : List Char
  author : Option (List Char)
  publishDate : Option JsDate
  error : Option (List Char)
deriving DecidableEq

/-- Exactly four decimal digits (the regex atom `\d{4}`), returning the value
and the remaining characters. -/
def digits4 : List Char → Option (Nat × List Char)
  | a :: b :: c :: d :: rest =>
    if a.isDigit && b.isDigit && c.isDigit && d.isDigit then
      some ((a.toNat - 48) * 1000 + (b.toNat - 48) * 100 + (c.toNat - 48) * 10
            + (d.toNat - 48), rest)
    else none
  | _ => none

/-- A single literal character. -/
def litChar (c : Char) : List Char → Option (List Char)
  | x :: rest => if x = c then some rest else none
  | [] => none

/-- The regex fragment `(\d{1,2})` immediately followed by the literal `c`,
with the greedy two-digit attempt tried before the one-digit backtrack,
exactly as a backtracking regex engine evaluates `\d{1,2}c`. -/
def digits12Lit (c : Char) : List Char → Option (Nat × List Char)
  | a :: b :: x :: rest =>
    if a.isDigit && b.isDigit && x = c then
      some ((a.toNat - 48) * 10 + (b.toNat - 48), rest)
    else if a.isDigit && b = c then some (a.toNat - 48, x :: rest)
    else none
  | [a, b] => if a.isDigit && b = c then some (a.toNat - 48, []) else none
  | _ => none

/-- The regex fragment `(\d{1,2})` at the end of a pattern: greedily take two
digits when two are available, else one. -/
def digits12End : List Char → Option Nat
  | a :: b :: _ =>
    if a.isDigit && b.isDigit then some ((a.toNat - 48) * 10 + (b.toNat - 48))
    else if a.isDigit then some (a.toNat - 48)
    else none
  | [a] => if a.isDigit then some (a.toNat - 48) else none
  | [] => none

/-- Try a matcher at every start position, leftmost first, as
`String.prototype.match` does with a non-anchored, non-global regex. -/
def scanMatch (f : List Char → Option α) : List Char → Option α
  | [] => f []
  | l@(_ :: rest) =>
    match f l with
    | some r => some r
    | none => scanMatch f rest

/-- Match of `/(\d{4})年(\d{1,2})月(\d{1,2})日/` starting at this position. -/
def fullCnDateAt (l : List Char) : Option (Nat × Nat × Nat) := do
  let (y, r) ← digits4 l
  let r ← litChar '年' r
  let (m, r) ← digits12Lit '月' r
  let (d, _) ← digits12Lit '日' r
  pure (y, m, d)

/-- Match of `/(\d{4})-(\d{1,2})-(\d{1,2})/` starting at this position. -/
def dashDateAt (l : List Char) : Option (Nat × Nat × Nat) := do
  let (y, r) ← digits4 l
  let r ← litChar '-' r
  let (m, r) ← digits12Lit '-' r
  let d ← digits12End r
  pure (y, m, d)

/-- Match of `/(\d{1,2})月(\d{1,2})日/` starting at this position. -/
def monthDayAt (l : List Char) : Option (Nat × Nat) := do
  let (m, r) ← digits12Lit '月' l
  let (d, _) ← digits12Lit '日' r
  pure (m, d)

/-- Embeds `dateStr.match(/(\d{4})年(\d{1,2})月(\d{1,2})日/)`, as the list of the
parsed capture groups. -/
def matchFullCnDate (l : List Char) : Option (List Nat) :=
  (scanMatch fullCnDateAt l).map (fun (y, m, d) => [y, m, d])

/-- Embeds `dateStr.match(/(\d{4})-(\d{1,2})-(\d{1,2})/)`, as parsed capture groups. -/
def matchDashDate (l : List Char) : Option (List Nat) :=
  (scanMatch dashDateAt l).map (fun (y, m, d) => [y, m, d])

/-- Embeds `dateStr.match(/(\d{1,2})月(\d{1,2})日/)`, as parsed capture groups. -/
def matchMonthDay (l : List Char) : Option (List Nat) :=
  (scanMatch monthDayAt l).map (fun (m, d) => [m, d])

/-- The `patterns` array of `parseChineseDate`, in source order, each regex
represented by its matcher. -/
def cnDatePatterns : List (List Char → Option (List Nat)) :=
  [matchFullCnDate, matchDashDate, matchMonthDay]

/-- The `for (const pattern of patterns)` loop body of `parseChineseDate`:
on a match with three capture groups (`match.length === 4` in the source)
build the full date; with two groups (`match.length === 3`) default the year
to the current calendar year; otherwise keep trying later patterns. -/
def cnDateLoop (currentYear : Nat) : List (List Char → Option (List Nat)) →
    List Char → Option JsDate
  | [], _ => none
  | p :: ps, s =>
    match p s with
    | some groups =>
      match groups with
      | [y, m, d] => some ⟨y, (m : Int) - 1, d⟩
      | [m, d] => some ⟨currentYear, (m : Int) - 1, d⟩
      | _ => cnDateLoop currentYear ps s
    | none => cnDateLoop currentYear ps s

/-- Embeds `WeChatUrlExtractorService.parseChineseDate`. The current calendar year
(`new Date().getFullYear()`) is passed in as `currentYear`. -/
def parseChineseDate (currentYear : Nat) (dateStr : List Char) : Option JsDate :=
  cnDateLoop currentYear cnDatePatterns dateStr

/-- The ordered three-pattern specification of `parseChineseDate` as the spec
states it: try `YYYY年M月D日`, then `YYYY-M-D`, then `M月D日`, returning the
date built from the first pattern that matches, with the year defaulting to
the current calendar year when the pattern omits it, and `undefined` (none)
when no pattern matches. -/
def parseChineseDateSpec (currentYear : Nat) (dateStr : List Char) : Option JsDate :=
  match scanMatch fullCnDateAt dateStr with
  | some (y, m, d) => some ⟨y, (m : Int) - 1, d⟩
  | none =>
    match scanMatch dashDateAt dateStr with
    | some (y, m, d) => some ⟨y, (m : Int) - 1, d⟩
    | none =>
      match scanMatch monthDayAt dateStr with
      | some (m, d) => some ⟨currentYear, (m : Int) - 1, d⟩
      | none => none

/-- The first content-selector hit of the page: the texts the source reads
from the matched container after removing script/style/decorative nodes.
`paraTexts` are the raw `$(elem).text()` values of its `p, div, section`
descendants in document order; `fullText` is the container's own text. -/
structure ContentEl where
  paraTexts : List (List Char)
  fullText : List Char
deriving DecidableEq

/-- Abstraction of a fetched, cheerio-parsed WeChat article page: for each
selector list the source consults, the `$(selector).first().text()` values in
selector order (for title/author/date), and per content selector the matched
container, when one exists. -/
structure Page where
  titleTexts : List (List Char)
  authorTexts : List (List Char)
  dateTexts : List (List Char)
  contentCandidates : List (Option ContentEl)
deriving DecidableEq

/-- Embeds `WeChatUrlExtractorService.extractTitle`: first non-empty trimmed text
over the title selectors, else the empty string. -/
def extractTitle : List (List Char) → List Char
  | [] => []
  | t :: ts =>
    let tt := jsTrim t
    if tt.isEmpty then extractTitle ts else tt

/-- Embeds `WeChatUrlExtractorService.extractAuthor`: same fallback pattern as the
title, empty string when no selector matches. -/
def extractAuthor : List (List Char) → List Char
  | [] => []
  | t :: ts =>
    let tt := jsTrim t
    if tt.isEmpty then extractAuthor ts else tt

/-- Embeds `WeChatUrlExtractorService.extractPublishDate`: on each selector's
non-empty trimmed text attempt `parseChineseDate`; an unparsable text falls
through to the next selector; `undefined` (none) when nothing parses. -/
def extractPublishDate (currentYear : Nat) : List (List Char) → Option JsDate
  | [] => none
  | t :: ts =>
    let tt := jsTrim t
    if tt.isEmpty then extractPublishDate currentYear ts
    else
      match parseChineseDate currentYear tt with
      | some d => some d
      | none => extractPublishDate currentYear ts

/-- Embeds `WeChatUrlExtractorService.extractContent`: at the first selector whose
container exists, keep the trimmed descendant texts longer than 10 characters
and join them with blank lines; when none qualify fall back to the
container's trimmed full text. Later selectors are consulted only when the
container itself is absent. -/
def extractContent : List (Option ContentEl) → List Char
  | [] => []
  | none :: rest => extractContent rest
  | some el :: _ =>
    let pieces := (el.paraTexts.map jsTrim).filter
      (fun t => !t.isEmpty && decide (10 < t.length))
    let content := pieces.foldl (fun acc t => acc ++ t ++ ['\n', '\n']) []
    if content.isEmpty then jsTrim el.fullText else content

/-- A JavaScript thrown value as the extractor's catch blocks see it:
`some msg` for an `Error` with message `msg`, `none` for a non-`Error`
throw (whose message the source replaces with `'未知错误'`). -/
def errToMsg : Option (List Char) → List Char
  | some m => m
  | none => "未知错误".data

/-- Embeds `WeChatUrlExtractorService.extractSingleWeChatArticle`, with the network
fetch and HTML parse abstracted into its input: `.error e` when
`axios.get`/`cheerio.load` throws `e`, `.ok page` when the page is fetched
and parsed. The catch block converts every throw — including the source's
own short-content throw — into a failure result, so the embedding is a total
function (extraction never throws past this boundary). -/
def extractSingleWeChatArticle (url : List Char) (currentYear : Nat)
    (fetched : Except (Option (List Char)) Page) : ExtractedWeChatArticle :=
  match fetched with
  | .error e =>
    { url, title := "提取失败".data, content := [], author := none,
      publishDate := none, error := some (errToMsg e) }
  | .ok page =>
    let title := extractTitle page.titleTexts
    let author := extractAuthor page.authorTexts
    let publishDate := extractPublishDate currentYear page.dateTexts
    let content := extractContent page.contentCandidates
    if content.isEmpty || decide (content.length < 50) then
      { url, title := "提取失败".data, content := [], author := none,
        publishDate := none, error := some "文章内容提取失败或内容过短".data }
    else
      { url, title := if title.isEmpty then "无标题".data else title,
        content := cleanContent content, author := some author,
        publishDate, error := none }

/-- The two `URL` properties `isWeChatArticleUrl` reads. -/
structure URLRecord where
  hostname : List Char
  pathname : List Char
deriving DecidableEq

/-- Split a list at the first occurrence of `sep` (excluded), or `none` when
`sep` does not occur. -/
def splitAtFirst (sep : Char) : List Char → Option (List Char × List Char)
  | [] => none
  | c :: cs =>
    if c = sep then some ([], cs)
    else (splitAtFirst sep cs).map (fun p => (c :: p.1, p.2))

/-- Take characters up to (but excluding) the first occurrence of any stop
character, returning the taken part and the rest (stop included). -/
def takeUntilDelims (stops : List Char) : List Char → List Char × List Char
  | [] => ([], [])
  | c :: cs =>
    if stops.contains c then ([], c :: cs)
    else
      let p := takeUntilDelims stops cs
      (c :: p.1, p.2)

/-- Drop a userinfo component: everything up to and including the last `'@'`
of the authority, as the WHATWG URL parser does. -/
def dropUserInfo (l : List Char) : List Char :=
  ((takeUntilDelims ['@'] l.reverse).1).reverse

/-- ASCII C0 control or space: the characters the URL parser strips from
both ends of its input. -/
def isC0OrSpace (c : Char) : Bool := c.toNat <= 0x20

/-- ASCII tab or newline: removed from anywhere in the URL input. -/
def isTabOrNewline (c : Char) : Bool := c = '\t' || c = '\n' || c = '\r'

/-- Input preprocessing of the WHATWG URL parser: strip leading and trailing
C0 controls and spaces, and remove every tab and newline. -/
def preprocessURL (l : List Char) : List Char :=
  (((l.dropWhile isC0OrSpace).reverse.dropWhile isC0OrSpace).reverse).filter
    (fun c => !isTabOrNewline c)

/-- A scheme code point after the first: ASCII alphanumeric, plus, minus, or
period. -/
def isSchemeChar (c : Char) : Bool :=
  c.isAlphanum || c = '+' || c = '-' || c = '.'

/-- A valid URL scheme: an ASCII alpha followed by scheme code points. -/
def validScheme (s : List Char) : Bool :=
  match s with
  | [] => false
  | c :: rest => c.isAlpha && rest.all isSchemeChar

/-- The special schemes other than `file`: their URLs skip any run of
slashes after the colon and require a non-empty host. -/
def isSpecialNonFile (s : List Char) : Bool :=
  s = "http".data || s = "https".data || s = "ws".data || s = "wss".data ||
  s = "ftp".data

/-- Numeric value of a digit string. -/
def portVal (l : List Char) : Nat :=
  l.foldl (fun a c => a * 10 + (c.toNat - 48)) 0

/-- Split the host-and-port part (userinfo already removed) at the first
colon and validate the port as the URL parser does: an empty port is
allowed, otherwise it must be all ASCII digits with value at most 65535;
anything else is a constructor throw (`none`). Returns the host part. -/
def hostAndValidPort (hostport : List Char) : Option (List Char) :=
  match splitAtFirst ':' hostport with
  | none => some hostport
  | some (h, p) =>
    if p.isEmpty || (p.all Char.isDigit && portVal p <= 65535) then some h
    else none

/-- The `pathname` of the part following the authority: starts at `'/'` (or,
for special schemes, `'\\'`, which they treat as `'/'`), stops before any
query or fragment, and is `"/"` when absent. -/
def pathnameOf (special : Bool) (rest : List Char) : List Char :=
  match rest with
  | [] => ['/']
  | '?' :: _ => ['/']
  | '#' :: _ => ['/']
  | l => ((takeUntilDelims ['?', '#'] l).1).map
      (fun c => if special && c = '\\' then '/' else c)

/-- Authority parsing for the special non-`file` schemes: skip every slash
or backslash after the colon, cut the authority at the next delimiter,
strip userinfo, validate the port, require a non-empty host, and lowercase
it (special hosts are domains). -/
def parseSpecialAuthority (rest : List Char) : Option URLRecord :=
  let rest2 := rest.dropWhile (fun c => c = '/' || c = '\\')
  let p := takeUntilDelims ['/', '\\', '?', '#'] rest2
  match hostAndValidPort (dropUserInfo p.1) with
  | none => none
  | some host =>
    if host.isEmpty then none
    else some { hostname := host.map Char.toLower, pathname := pathnameOf true p.2 }

/-- Authority parsing for non-special schemes: only an explicit `//`
introduces an authority, the host is opaque (kept case-sensitively, may be
empty), the port is validated as usual; without `//` the URL has an empty
hostname and an opaque path. -/
def parseNonSpecial (rest : List Char) : Option URLRecord :=
  match rest with
  | '/' :: '/' :: rest2 =>
    let p := takeUntilDelims ['/', '?', '#'] rest2
    match hostAndValidPort (dropUserInfo p.1) with
    | none => none
    | some host => some { hostname := host, pathname := pathnameOf false p.2 }
  | l => some { hostname := [], pathname := (takeUntilDelims ['?', '#'] l).1 }

/-- A Windows drive letter, which a `file` URL authority position treats as
the start of the path rather than as a host. -/
def isWindowsDriveLetter (l : List Char) : Bool :=
  match l with
  | [c, d] => c.isAlpha && (d = ':' || d = '|')
  | _ => false

/-- Parsing of `file` URLs: exactly two slashes introduce a host position;
a Windows drive letter there belongs to the path, a colon or at-sign in a
file host is a constructor throw, the host `localhost` maps to the empty
host, and an empty host is allowed. Without a double slash the hostname is
empty. -/
def parseFileURL (rest : List Char) : Option URLRecord :=
  match rest with
  | a :: b :: rest2 =>
    if (a = '/' || a = '\\') && (b = '/' || b = '\\') then
      let p := takeUntilDelims ['/', '\\', '?', '#'] rest2
      if isWindowsDriveLetter p.1 then
        some { hostname := [],
               pathname := '/' :: (p.1 ++ (takeUntilDelims ['?', '#'] p.2).1).map
                 (fun c => if c = '\\' then '/' else c) }
      else if p.1.contains ':' || p.1.contains '@' then none
      else
        let host := p.1.map Char.toLower
        some { hostname := if host = "localhost".data then [] else host,
               pathname := pathnameOf true p.2 }
    else some { hostname := [], pathname := (takeUntilDelims ['?', '#'] (a :: b :: rest2)).1 }
  | l => some { hostname := [], pathname := (takeUntilDelims ['?', '#'] l).1 }

/-- Model of the WHATWG `new URL(url)` constructor, as far as
`isWeChatArticleUrl` observes it: the `hostname`, the `pathname`, and
whether the constructor throws (`none`). Covered: stripping of leading and
trailing C0-or-space and removal of tabs and newlines; scheme validation
and lowercasing; the special schemes `http`, `https`, `ws`, `wss`, `ftp`
(slash-run skipping, userinfo stripping, port validation with the 65535
bound, a mandatory non-empty lowercased host, backslash treated as slash in
paths) and `file` (optional host, `localhost` mapping, Windows drive
letters); non-special schemes parse with an opaque case-preserved host, or
an empty hostname when no `//` authority is present. Outside the model,
stated explicitly: IDNA/punycode and percent-decoding of domains (a
Unicode or percent-escaped spelling of a host is kept verbatim here),
throws on forbidden host characters (such hosts are kept verbatim, and
never equal the expected domain), dot-segment removal in paths, and the
exact pathname of hostless `file` and opaque-path URLs (their hostname,
which is all the predicate reads, is the empty string either way). -/
def parseURL (url : List Char) : Option URLRecord :=
  let input := preprocessURL url
  match splitAtFirst ':' input with
  | none => none
  | some (scheme, rest) =>
    if validScheme scheme then
      let schemeL := scheme.map Char.toLower
      if schemeL = "file".data then parseFileURL rest
      else if isSpecialNonFile schemeL then parseSpecialAuthority rest
      else parseNonSpecial rest
    else none

/-- Embeds `WeChatUrlExtractorService.isWeChatArticleUrl`: the URL must parse, its
host must be `mp.weixin.qq.com`, and its path must start with `/s/`; a
constructor throw is caught and yields `false`. -/
def isWeChatArticleUrl (url : List Char) : Bool :=
  match parseURL url with
  | some u => u.hostname = "mp.weixin.qq.com".data && "/s/".data.isPrefixOf u.pathname
  | none => false

/-- One settled promise of a window, as `Promise.allSettled` reports it:
fulfilled with the extraction result, or rejected with a reason whose
optional `message` is carried (`none` when `reason?.message` is undefined). -/
inductive SettledResult where
  | fulfilled : ExtractedWeChatArticle → SettledResult
  | rejected : Option (List Char) → SettledResult
deriving DecidableEq

/-- Embeds `reason?.message || '未知错误'`: the fallback fires on a missing and on
an empty message. -/
def jsOrDefault (m : Option (List Char)) (d : List Char) : List Char :=
  match m with
  | some s => if s.isEmpty then d else s
  | none => d

/-- How `extractBatchWeChatArticles` turns one settled promise into a result
entry: a fulfilled value is pushed as-is, a rejection becomes a failure entry
for the URL. -/
def settledEntry (url : List Char) : SettledResult → ExtractedWeChatArticle
  | .fulfilled a => a
  | .rejected m =>
    { url, title := "提取失败".data, content := [], author := none,
      publishDate := none, error := some (jsOrDefault m "未知错误".data) }

/-- The failure entry `extractBatchWeChatArticles` pushes for a URL that is
not a valid WeChat article link. -/
def invalidUrlEntry (url : List Char) : ExtractedWeChatArticle :=
  { url, title := "无效链接".data, content := [], author := none,
    publishDate := none, error := some "不是有效的微信文章链接".data }

/-- The `for (let i = 0; i < validUrls.length; i += concurrencyLimit)` loop
of `extractBatchWeChatArticles` with `concurrencyLimit = 2`: each window
`validUrls.slice(i, i + 2)` is settled concurrently and its results are
pushed in window order (the inter-window 3000 ms delay has no effect on the
value). `settle` maps each URL to its settled promise. -/
def windowLoop (settle : List Char → SettledResult) : List (List Char) →
    List ExtractedWeChatArticle
  | [] => []
  | [u] => [settledEntry u (settle u)]
  | u :: v :: rest =>
    settledEntry u (settle u) :: settledEntry v (settle v) ::
      windowLoop settle rest

/-- Embeds `WeChatUrlExtractorService.extractBatchWeChatArticles`: failure entries
for the invalid URLs are pushed first, then the valid URLs are processed in
windows of two. -/
def extractBatchWeChatArticles (settle : List Char → SettledResult)
    (urls : List (List Char)) : List ExtractedWeChatArticle :=
  let validUrls := urls.filter isWeChatArticleUrl
  let invalidUrls := urls.filter (fun u => !isWeChatArticleUrl u)
  invalidUrls.map invalidUrlEntry ++ windowLoop settle validUrls

/-- Embeds `SummaryResult` from `DeepSeekService`. The `sentiment` union type is a
compile-time annotation only, so the field is a plain string here. -/
structure SummaryResult where
  content : List Char
  keyPoints : List (List Char)
  sentiment : List Char
  category : List Char
deriving DecidableEq

/-- The four fields `parseSummaryResponse` reads off a `JSON.parse` result,
each possibly absent. -/
structure ParsedJson where
  summary : Option (List Char)
  keyPoints : Option (List (List Char))
  sentiment : Option (List Char)
  category : Option (List Char)
deriving DecidableEq

/-- Index of the first occurrence of `c`, if any. -/
def firstIdxOf (c : Char) : List Char → Option Nat
  | [] => none
  | x :: xs =>
    if x = c then some 0 else (firstIdxOf c xs).map (· + 1)

/-- Index of the last occurrence of `c`, if any. -/
def lastIdxOf (c : Char) : List Char → Option Nat
  | [] => none
  | x :: xs =>
    match lastIdxOf c xs with
    | some i => some (i + 1)
    | none => if x = c then some 0 else none

/-- The `response.match` call of `parseSummaryResponse` on the regex that
takes everything from a left brace to a right brace. The leftmost left brace
that has a right brace after it starts the match, and the greedy `[\s\S]*`
extends the match to the last right brace of the string. -/
def braceMatch (l : List Char) : Option (List Char) :=
  match firstIdxOf '{' l, lastIdxOf '}' l with
  | some i, some j => if i < j then some ((l.drop i).take (j - i + 1)) else none
  | _, _ => none

/-- Embeds `response.split('\n')` (separators removed, empty segments kept). -/
def splitOnNewline : List Char → List (List Char)
  | [] => [[]]
  | c :: cs =>
    if c = '\n' then [] :: splitOnNewline cs
    else
      match splitOnNewline cs with
      | s :: ss => (c :: s) :: ss
      | [] => [[c]]

/-- Embeds `Array.prototype.join(' ')`. -/
def joinWithSpace : List (List Char) → List Char
  | [] => []
  | [x] => x
  | x :: xs => x ++ ' ' :: joinWithSpace xs

/-- Embeds `DeepSeekService.fallbackParsing`: the non-blank lines of the raw
response; the first three, joined with spaces and cut to 200 characters plus
an ellipsis, become the summary, and the same three lines the key points. -/
def fallbackParsing (response : List Char) : SummaryResult :=
  let lines := (splitOnNewline response).filter (fun line => !(jsTrim line).isEmpty)
  { content := (joinWithSpace (lines.take 3)).take 200 ++ "...".data,
    keyPoints := lines.take 3,
    sentiment := "neutral".data,
    category := "未分类".data }

/-- Embeds `parsed.field || default` for a string field: the default replaces a
missing and an empty value. -/
def jsonFieldOr (v : Option (List Char)) (d : List Char) : List Char :=
  match v with
  | some s => if s.isEmpty then d else s
  | none => d

/-- Embeds `DeepSeekService.parseSummaryResponse`, with `JSON.parse` abstracted as
`jsonParse` (`none` models a parse throw). When a brace-delimited candidate
is found and parses, its fields are mapped with defaults; otherwise the
heuristic fallback runs. The function is total: no case throws past it. -/
def parseSummaryResponse (jsonParse : List Char → Option ParsedJson)
    (response : List Char) : SummaryResult :=
  match braceMatch response with
  | some m =>
    match jsonParse m with
    | some parsed =>
      { content := parsed.summary.getD [],
        keyPoints := parsed.keyPoints.getD [],
        sentiment := jsonFieldOr parsed.sentiment "neutral".data,
        category := jsonFieldOr parsed.category "未分类".data }
    | none => fallbackParsing response
  | none => fallbackParsing response

/-- One entry of the route's `results` array. -/
structure ResultEntry where
  url : List Char
  title : List Char
  summary : Option SummaryResult
  error : Option (List Char)
deriving DecidableEq

/-- Embeds `BatchSummarizeResponse` from the route. -/
structure BatchSummarizeResponse where
  success : Bool
  results : List ResultEntry
  totalProcessed : Nat
  successCount : Nat
  failCount : Nat
deriving DecidableEq

/-- JavaScript truthiness of the optional `error` string field: present and
non-empty. -/
def jsTruthy : Option (List Char) → Bool
  | some s => !s.isEmpty
  | none => false

/-- The route's 400 responses. -/
inductive ApiError where
  | badRequest : List Char → ApiError
deriving DecidableEq

/-- The per-article `for (const article of extractedArticles)` loop of the
route: an entry with a truthy `error` is recorded as a failure; otherwise the
summarize-and-persist block runs, modelled by the `summarize` oracle whose
`.error` outcome is the block's catch path. Returns the `results` array and
the success/fail counters. -/
def processArticles
    (summarize : ExtractedWeChatArticle → Except (Option (List Char)) SummaryResult) :
    List ExtractedWeChatArticle → List ResultEntry × Nat × Nat
  | [] => ([], 0, 0)
  | a :: rest =>
    let p := processArticles summarize rest
    if jsTruthy a.error then
      ({ url := a.url, title := a.title, summary := none, error := a.error } :: p.1,
       p.2.1, p.2.2 + 1)
    else
      match summarize a with
      | .ok sr =>
        ({ url := a.url, title := a.title, summary := some sr, error := none } :: p.1,
         p.2.1 + 1, p.2.2)
      | .error e =>
        ({ url := a.url, title := a.title, summary := none,
           error := some ("总结失败: ".data ++ errToMsg e) } :: p.1,
         p.2.1, p.2.2 + 1)

/-- Embeds `POST /api/batch-summarize`: validate the URL list, run the batch
extractor, classify every extraction result, and assemble the report with
`totalProcessed` set to the input length. -/
def batchSummarizePost (settle : List Char → SettledResult)
    (summarize : ExtractedWeChatArticle → Except (Option (List Char)) SummaryResult)
    (urls : List (List Char)) : Except ApiError BatchSummarizeResponse :=
  if urls.isEmpty then .error (.badRequest "请提供有效的URL数组".data)
  else if 20 < urls.length then .error (.badRequest "单次最多处理20个URL".data)
  else
    let extractedArticles := extractBatchWeChatArticles settle urls
    let p := processArticles summarize extractedArticles
    .ok { success := true, results := p.1, totalProcessed := urls.length,
          successCount := p.2.1, failCount := p.2.2 }

/-- Embeds `accountName = '批量导入'` destructuring default of the route: applied
only when the field is absent, not when it is an empty string. -/
def effectiveAccountName (accountName : Option (List Char)) : List Char :=
  accountName.getD "批量导入".data

/-- The fields both branches of the `prisma.article.upsert` call write. -/
structure ArticleRow where
  title : List Char
  content : List Char
  publishDate : JsDate
  author : List Char
  accountId : Nat
deriving DecidableEq

/-- The `update` branch of the article upsert:
`publishDate: article.publishDate || new Date()` and
`author: article.author || accountName` (the `||` fallback also fires on an
empty author string). `now` stands for `new Date()`. -/
def articleUpsertUpdate (article : ExtractedWeChatArticle)
    (accountName : List Char) (accountId : Nat) (now : JsDate) : ArticleRow :=
  { title := article.title,
    content := article.content,
    publishDate := article.publishDate.getD now,
    author := jsOrDefault article.author accountName,
    accountId }

/-- The `create` branch of the article upsert (it also writes `url`, which
equals the upsert key and is omitted here; the remaining fields are built by
the same expressions as the update branch). -/
def articleUpsertCreate (article : ExtractedWeChatArticle)
    (accountName : List Char) (accountId : Nat) (now : JsDate) : ArticleRow :=
  { title := article.title,
    content := article.content,
    publishDate := article.publishDate.getD now,
    author := jsOrDefault article.author accountName,
    accountId }

/-! ### Invariants of the whitespace pipeline -/

/-- The head, when present, is not JS whitespace. -/
def headNotWs : List Char → Prop
  | [] => True
  | c :: _ => jsIsWs c = false

/-- Every whitespace character is a plain space, and no whitespace character
is immediately followed by another: the shape `collapseWs` produces. -/
def SpacedOK : List Char → Prop
  | [] => True
  | c :: rest => (jsIsWs c = true → c = ' ' ∧ headNotWs rest) ∧ SpacedOK rest

theorem spacedOK_cons_iff (c : Char) (rest : List Char) :
    SpacedOK (c :: rest) ↔
      (jsIsWs c = true → c = ' ' ∧ headNotWs rest) ∧ SpacedOK rest := Iff.rfl

theorem spacedOK_collapseGo (l : List Char) :
    SpacedOK (collapseGo false l) ∧ SpacedOK (collapseGo true l) ∧
      headNotWs (collapseGo true l) := by
  induction l with
  | nil => exact ⟨trivial, trivial, trivial⟩
  | cons c cs ih =>
    by_cases h : jsIsWs c = true
    · simp only [collapseGo, h, if_true]
      exact ⟨⟨fun _ => ⟨rfl, ih.2.2⟩, ih.2.1⟩, ih.2.1, ih.2.2⟩
    · simp only [collapseGo, h, if_false]
      have hs : SpacedOK (c :: collapseGo false cs) :=
        ⟨fun hc => absurd hc h, ih.1⟩
      exact ⟨hs, hs, eq_false_of_ne_true h⟩

theorem spacedOK_collapseWs (l : List Char) : SpacedOK (collapseWs l) :=
  (spacedOK_collapseGo l).1

theorem collapseGo_true_eq_false (l : List Char) (h : headNotWs l) :
    collapseGo true l = collapseGo false l := by
  cases l with
  | nil => rfl
  | cons c cs =>
    have hc : jsIsWs c = false := h
    simp [collapseGo, hc]

theorem collapseWs_eq_self (l : List Char) (h : SpacedOK l) :
    collapseWs l = l := by
  induction l with
  | nil => rfl
  | cons c cs ih =>
    rcases h with ⟨hc, hrest⟩
    by_cases hw : jsIsWs c = true
    · rcases hc hw with ⟨hsp, hhead⟩
      subst hsp
      have h1 : collapseGo false (' ' :: cs) = ' ' :: collapseGo true cs := by
        simp [collapseGo, hw]
      show collapseGo false (' ' :: cs) = ' ' :: cs
      rw [h1, collapseGo_true_eq_false cs hhead]
      show ' ' :: collapseWs cs = ' ' :: cs
      rw [ih hrest]
    · have h1 : collapseGo false (c :: cs) = c :: collapseGo false cs := by
        simp [collapseGo, hw]
      show collapseGo false (c :: cs) = c :: cs
      rw [h1]
      show c :: collapseWs cs = c :: cs
      rw [ih hrest]

theorem spacedOK_append_right (l₁ l₂ : List Char)
    (h : SpacedOK (l₁ ++ l₂)) : SpacedOK l₂ := by
  induction l₁ with
  | nil => exact h
  | cons c cs ih => exact ih h.2

theorem headNotWs_append_left (l₁ l₂ : List Char) (hne : l₁ ≠ [])
    (h : headNotWs (l₁ ++ l₂)) : headNotWs l₁ := by
  cases l₁ with
  | nil => exact absurd rfl hne
  | cons c cs => exact h

theorem spacedOK_append_left (l₁ l₂ : List Char)
    (h : SpacedOK (l₁ ++ l₂)) : SpacedOK l₁ := by
  induction l₁ with
  | nil => trivial
  | cons c cs ih =>
    refine ⟨fun hw => ⟨(h.1 hw).1, ?_⟩, ih h.2⟩
    have := (h.1 hw).2
    cases cs with
    | nil => trivial
    | cons d ds => exact this

theorem spacedOK_mem (l : List Char) (h : SpacedOK l) (c : Char)
    (hc : c ∈ l) (hw : jsIsWs c = true) : c = ' ' := by
  induction l with
  | nil => cases hc
  | cons d ds ih =>
    rcases List.mem_cons.mp hc with heq | hmem
    · subst heq
      exact (h.1 hw).1
    · exact ih h.2 hmem

theorem spacedOK_no_newline (l : List Char) (h : SpacedOK l) (c : Char)
    (hc : c ∈ l) : c ≠ '\n' := by
  intro heq
  subst heq
  have : ('\n' : Char) = ' ' := spacedOK_mem l h '\n' hc (by decide)
  cases this

theorem normBlankGo_of_no_newline (fuel : Nat) (l : List Char)
    (h : ∀ c ∈ l, c ≠ '\n') : normBlankGo fuel l = l := by
  induction fuel generalizing l with
  | zero => cases l <;> rfl
  | succ f ih =>
    cases l with
    | nil => rfl
    | cons c cs =>
      have hc : c ≠ '\n' := h c (List.mem_cons_self c cs)
      simp only [normBlankGo, hc, if_false]
      rw [ih cs (fun d hd => h d (List.mem_cons_of_mem c hd))]

theorem normalizeBlank_of_no_newline (l : List Char)
    (h : ∀ c ∈ l, c ≠ '\n') : normalizeBlank l = l :=
  normBlankGo_of_no_newline l.length l h

theorem normalizeBlank_collapseWs (l : List Char) :
    normalizeBlank (collapseWs l) = collapseWs l :=
  normalizeBlank_of_no_newline _
    (spacedOK_no_newline _ (spacedOK_collapseWs l))

theorem dropTrailingWs_append (l : List Char) :
    l = dropTrailingWs l ++ (l.reverse.takeWhile jsIsWs).reverse := by
  unfold dropTrailingWs
  conv_lhs => rw [← l.reverse_reverse, ← List.takeWhile_append_dropWhile (p := jsIsWs) (l := l.reverse)]
  rw [List.reverse_append]

theorem spacedOK_dropWhile (p : Char → Bool) (l : List Char)
    (h : SpacedOK l) : SpacedOK (l.dropWhile p) := by
  have := List.takeWhile_append_dropWhile (p := p) (l := l)
  exact spacedOK_append_right _ _ (this ▸ h)

theorem spacedOK_take (n : Nat) (l : List Char) (h : SpacedOK l) :
    SpacedOK (l.take n) := by
  have := List.take_append_drop n l
  exact spacedOK_append_left _ _ (this ▸ h)

theorem spacedOK_dropTrailingWs (l : List Char) (h : SpacedOK l) :
    SpacedOK (dropTrailingWs l) :=
  spacedOK_append_left _ _ (dropTrailingWs_append l ▸ h)

theorem spacedOK_jsTrim (l : List Char) (h : SpacedOK l) :
    SpacedOK (jsTrim l) :=
  spacedOK_dropTrailingWs _ (spacedOK_dropWhile _ _ h)

theorem length_dropWhile_le (p : Char → Bool) (l : List Char) :
    (l.dropWhile p).length ≤ l.length := by
  conv_rhs => rw [← List.takeWhile_append_dropWhile (p := p) (l := l)]
  rw [List.length_append]
  omega

theorem length_dropTrailingWs_le (l : List Char) :
    (dropTrailingWs l).length ≤ l.length := by
  unfold dropTrailingWs
  rw [List.length_reverse]
  calc (l.reverse.dropWhile jsIsWs).length ≤ l.reverse.length :=
        length_dropWhile_le _ _
    _ = l.length := List.length_reverse l

theorem length_jsTrim_le (l : List Char) : (jsTrim l).length ≤ l.length :=
  le_trans (length_dropTrailingWs_le _) (length_dropWhile_le _ _)

theorem length_cleanContent_le (l : List Char) :
    (cleanContent l).length ≤ maxContentLength := by
  unfold cleanContent
  rw [List.length_take]
  exact min_le_left _ _

theorem spacedOK_cleanContent (l : List Char) : SpacedOK (cleanContent l) := by
  unfold cleanContent
  rw [normalizeBlank_collapseWs]
  exact spacedOK_take _ _ (spacedOK_jsTrim _ (spacedOK_collapseWs l))

/-- The characterization of `cleanContent` that actually holds: the
blank-line replace is a no-op because the preceding global whitespace
collapse already removed every newline. -/
theorem cleanContent_eq (l : List Char) :
    cleanContent l = (jsTrim (collapseWs l)).take maxContentLength := by
  unfold cleanContent
  rw [normalizeBlank_collapseWs]

theorem cleanContent_no_newline (l : List Char) :
    ∀ c ∈ cleanContent l, c ≠ '\n' :=
  spacedOK_no_newline _ (spacedOK_cleanContent l)

theorem cleanContent_idem_to_trim (l : List Char) :
    cleanContent (cleanContent l) = jsTrim (cleanContent l) := by
  have hok : SpacedOK (cleanContent l) := spacedOK_cleanContent l
  unfold cleanContent
  rw [show collapseWs ((jsTrim (normalizeBlank (collapseWs l))).take maxContentLength)
        = collapseWs (cleanContent l) from rfl]
  rw [collapseWs_eq_self _ hok]
  rw [normalizeBlank_of_no_newline _ (spacedOK_no_newline _ hok)]
  apply List.take_of_length_le
  calc (jsTrim (cleanContent l)).length ≤ (cleanContent l).length :=
        length_jsTrim_le _
    _ ≤ maxContentLength := length_cleanContent_le l

theorem dropWhile_head_not (p : Char → Bool) (l : List Char) :
    l.dropWhile p = [] ∨
      ∃ c t, l.dropWhile p = c :: t ∧ p c = false := by
  induction l with
  | nil => exact Or.inl rfl
  | cons c cs ih =>
    by_cases h : p c = true
    · rw [List.dropWhile_cons_of_pos h]
      exact ih
    · rw [List.dropWhile_cons_of_neg (by simpa using h)]
      exact Or.inr ⟨c, cs, rfl, eq_false_of_ne_true h⟩

theorem dropTrailingWs_shape (l : List Char) :
    dropTrailingWs l = [] ∨ ∃ t, l = dropTrailingWs l ++ t := by
  exact Or.inr ⟨_, dropTrailingWs_append l⟩

theorem dropTrailingWs_ne_nil (l : List Char) (c : Char) (hc : c ∈ l)
    (hw : jsIsWs c = false) : dropTrailingWs l ≠ [] := by
  intro h
  unfold dropTrailingWs at h
  have h2 : l.reverse.dropWhile jsIsWs = [] := by
    have := congrArg List.reverse h
    simpa using this
  have h3 : ∀ d ∈ l.reverse, jsIsWs d = true := by
    intro d hd
    have := List.dropWhile_eq_nil_iff.mp h2
    exact this d hd
  have := h3 c (List.mem_reverse.mpr hc)
  rw [this] at hw
  cases hw

theorem jsTrim_shape (l : List Char) :
    jsTrim l = [] ∨ ∃ c t, jsTrim l = c :: t ∧ jsIsWs c = false := by
  unfold jsTrim
  rcases dropWhile_head_not jsIsWs l with h | ⟨c, t, h, hc⟩
  · rw [h]
    exact Or.inl rfl
  · rw [h]
    rcases dropTrailingWs_shape (c :: t) with h2 | ⟨t2, h2⟩
    · rw [h2]
      exact Or.inl rfl
    · cases hdt : dropTrailingWs (c :: t) with
      | nil => exact Or.inl rfl
      | cons d ds =>
        rw [hdt] at h2
        have : d = c := by
          have := congrArg (fun x => x.head?) h2
          simpa using this.symm
        subst this
        exact Or.inr ⟨d, ds, rfl, hc⟩

theorem collapseGo_false_cons_not_ws (c : Char) (t : List Char)
    (h : jsIsWs c = false) :
    collapseGo false (c :: t) = c :: collapseGo false t := by
  simp [collapseGo, h]

theorem cleanContent_ne_nil (c : Char) (t : List Char)
    (h : jsIsWs c = false) : cleanContent (c :: t) ≠ [] := by
  rw [cleanContent_eq]
  intro habs
  have h1 : collapseWs (c :: t) = c :: collapseGo false t :=
    collapseGo_false_cons_not_ws c t h
  have h2 : jsTrim (collapseWs (c :: t)) ≠ [] := by
    unfold jsTrim
    rw [h1, List.dropWhile_cons_of_neg (by simp [h])]
    exact dropTrailingWs_ne_nil _ c (List.mem_cons_self c _) h
  have h3 : jsTrim (collapseWs (c :: t)) = [] := by
    have := congrArg List.length habs
    rw [List.length_take, List.length_nil] at this
    have hmax : (0 : Nat) < maxContentLength := by decide
    rcases Nat.min_eq_zero_iff.mp this with h4 | h4
    · omega
    · exact List.length_eq_zero.mp h4
  exact h2 h3

theorem foldlAppend_eq (ps : List (List Char)) (a : List Char) :
    ps.foldl (fun acc t => acc ++ t ++ ['\n', '\n']) a =
      a ++ ps.foldl (fun acc t => acc ++ t ++ ['\n', '\n']) [] := by
  induction ps generalizing a with
  | nil => simp
  | cons p ps ih =>
    rw [List.foldl_cons, List.foldl_cons, ih, ih (([] : List Char) ++ p ++ _)]
    simp [List.append_assoc]

/-- The text `extractContent` returns is empty or starts with a
non-whitespace character: the paragraph pieces are trimmed and non-empty,
and the fallback is itself trimmed. -/
theorem extractContent_shape (cands : List (Option ContentEl)) :
    extractContent cands = [] ∨
      ∃ c t, extractContent cands = c :: t ∧ jsIsWs c = false := by
  induction cands with
  | nil => exact Or.inl rfl
  | cons hd rest ih =>
    cases hd with
    | none => exact ih
    | some el =>
      have hunf : extractContent (some el :: rest) =
          (if (((el.paraTexts.map jsTrim).filter
                 (fun t => !t.isEmpty && decide (10 < t.length))).foldl
                 (fun acc t => acc ++ t ++ ['\n', '\n']) []).isEmpty
           then jsTrim el.fullText
           else ((el.paraTexts.map jsTrim).filter
                 (fun t => !t.isEmpty && decide (10 < t.length))).foldl
                 (fun acc t => acc ++ t ++ ['\n', '\n']) []) := rfl
      rw [hunf]
      set pieces := (el.paraTexts.map jsTrim).filter
        (fun t => !t.isEmpty && decide (10 < t.length)) with hpieces
      set content := pieces.foldl (fun acc t => acc ++ t ++ ['\n', '\n']) []
        with hcontent
      by_cases hemp : content.isEmpty = true
      · rw [if_pos hemp]
        exact jsTrim_shape el.fullText
      · rw [if_neg hemp]
        cases hp : pieces with
        | nil =>
          exfalso
          rw [hp] at hcontent
          simp [hcontent] at hemp
        | cons p ps =>
          have hpmem : p ∈ pieces := by rw [hp]; exact List.mem_cons_self _ _
          have hpfilter := List.mem_filter.mp (hpieces ▸ hpmem)
          have hpne : ¬p.isEmpty := by
            have := hpfilter.2
            simp only [Bool.and_eq_true] at this
            simpa using this.1
          have hpmap := hpfilter.1
          rcases List.mem_map.mp hpmap with ⟨x, _, hx⟩
          rcases jsTrim_shape x with hnil | ⟨c, t, hct, hc⟩
          · rw [hx] at hnil
            rw [hnil] at hpne
            simp at hpne
          · rw [hx] at hct
            have : content = p ++ ['\n', '\n'] ++
                ps.foldl (fun acc t => acc ++ t ++ ['\n', '\n']) [] := by
              rw [hcontent, hp, List.foldl_cons, foldlAppend_eq]
              simp
            rw [this, hct]
            refine Or.inr ⟨c, t ++ ['\n', '\n'] ++
              ps.foldl (fun acc u => acc ++ u ++ ['\n', '\n']) [], ?_, hc⟩
            simp

/-! ### Batch and orchestrator lemmas -/

/-- Pushing window results in window order is the same as mapping over the
valid URLs in their original relative order. -/
theorem windowLoop_eq_map (settle : List Char → SettledResult) :
    ∀ l, windowLoop settle l = l.map (fun u => settledEntry u (settle u))
  | [] => rfl
  | [_] => rfl
  | u :: v :: rest => by
    show settledEntry u (settle u) :: settledEntry v (settle v) ::
        windowLoop settle rest = _
    rw [windowLoop_eq_map settle rest]
    rfl

theorem length_filter_partition (p : List Char → Bool) (l : List (List Char)) :
    (l.filter (fun u => !p u)).length + (l.filter p).length = l.length := by
  induction l with
  | nil => rfl
  | cons x xs ih =>
    cases hp : p x <;> simp [List.filter_cons, hp] <;> omega

/-- Helper form of the batch result: invalid-URL failure entries first, then
one settled entry per valid URL in input order. -/
theorem extractBatch_spec (settle : List Char → SettledResult)
    (urls : List (List Char)) :
    extractBatchWeChatArticles settle urls =
      (urls.filter (fun u => !isWeChatArticleUrl u)).map invalidUrlEntry ++
        (urls.filter isWeChatArticleUrl).map
          (fun u => settledEntry u (settle u)) := by
  show (urls.filter (fun u => !isWeChatArticleUrl u)).map invalidUrlEntry ++
      windowLoop settle (urls.filter isWeChatArticleUrl) = _
  rw [windowLoop_eq_map]

theorem extractBatch_length (settle : List Char → SettledResult)
    (urls : List (List Char)) :
    (extractBatchWeChatArticles settle urls).length = urls.length := by
  rw [extractBatch_spec, List.length_append, List.length_map, List.length_map]
  exact length_filter_partition isWeChatArticleUrl urls

theorem processArticles_cons
    (summarize : ExtractedWeChatArticle → Except (Option (List Char)) SummaryResult)
    (a : ExtractedWeChatArticle) (rest : List ExtractedWeChatArticle) :
    processArticles summarize (a :: rest) =
      if jsTruthy a.error then
        ({ url := a.url, title := a.title, summary := none,
           error := a.error } :: (processArticles summarize rest).1,
         (processArticles summarize rest).2.1,
         (processArticles summarize rest).2.2 + 1)
      else
        match summarize a with
        | .ok sr =>
          ({ url := a.url, title := a.title, summary := some sr,
             error := none } :: (processArticles summarize rest).1,
           (processArticles summarize rest).2.1 + 1,
           (processArticles summarize rest).2.2)
        | .error e =>
          ({ url := a.url, title := a.title, summary := none,
             error := some ("总结失败: ".data ++ errToMsg e) } ::
               (processArticles summarize rest).1,
           (processArticles summarize rest).2.1,
           (processArticles summarize rest).2.2 + 1) := rfl

theorem processArticles_spec
    (summarize : ExtractedWeChatArticle → Except (Option (List Char)) SummaryResult)
    (l : List ExtractedWeChatArticle) :
    (processArticles summarize l).2.1 + (processArticles summarize l).2.2 =
        l.length ∧
      (processArticles summarize l).1.length = l.length := by
  induction l with
  | nil => exact ⟨rfl, rfl⟩
  | cons a rest ih =>
    rw [processArticles_cons]
    have h1 := ih.1
    have h2 := ih.2
    by_cases h : jsTruthy a.error = true
    · rw [if_pos h]
      simp only [List.length_cons]
      constructor <;> omega
    · rw [if_neg h]
      cases hs : summarize a with
      | ok sr =>
        simp only [List.length_cons]
        constructor <;> omega
      | error e =>
        simp only [List.length_cons]
        constructor <;> omega

/-! ### Claim theorems -/

/-- C8: for every date string, `parseChineseDate` tries exactly the three
patterns `YYYY年M月D日`, `YYYY-M-D`, `M月D日` in that order, returns the
date built from the first pattern that matches — the year defaulting to the
current calendar year when the third pattern, which omits it, is the one
that matches — and returns `undefined` when no pattern matches. -/
theorem parseChineseDate_tries_three_patterns_in_order
    (currentYear : Nat) (dateStr : List Char) :
    parseChineseDate currentYear dateStr =
      parseChineseDateSpec currentYear dateStr := by
  unfold parseChineseDate cnDatePatterns parseChineseDateSpec
  rcases h1 : scanMatch fullCnDateAt dateStr with _ | ⟨⟨y1, m1, d1⟩⟩ <;>
    rcases h2 : scanMatch dashDateAt dateStr with _ | ⟨⟨y2, m2, d2⟩⟩ <;>
      rcases h3 : scanMatch monthDayAt dateStr with _ | ⟨⟨m3, d3⟩⟩ <;>
        simp [cnDateLoop, matchFullCnDate, matchDashDate, matchMonthDay,
          h1, h2, h3]

/-- C9: the batch fetcher's output places the failure entries of the invalid
URLs first, followed by the per-window results of the valid URLs in window
order, which preserves the valid URLs' relative input order. -/
theorem batch_output_invalid_first_then_valid_in_order
    (settle : List Char → SettledResult) (urls : List (List Char)) :
    extractBatchWeChatArticles settle urls =
      (urls.filter (fun u => !isWeChatArticleUrl u)).map invalidUrlEntry ++
        (urls.filter isWeChatArticleUrl).map
          (fun u => settledEntry u (settle u)) :=
  extractBatch_spec settle urls

/-- C4 counterexample: the claim says paragraph breaks separated by a blank
line survive `cleanContent` as a single blank line, but on the already
normalized input consisting of two one-character paragraphs the cleaner
returns them joined by a single space instead. -/
theorem cleanContent_drops_blank_lines_cx :
    cleanContent "a\n\nb".data = "a b".data ∧ "a b".data ≠ "a\n\nb".data := by
  decide

/-- C4 (amended): `cleanContent` collapses every whitespace run — newlines
and blank lines included — to a single space, trims, and truncates to 15000
characters; the blank-line-normalization step is a no-op because it runs
after all newlines were already replaced, so the output never contains a
newline. -/
theorem cleanContent_collapses_all_whitespace (s : List Char) :
    cleanContent s = (jsTrim (collapseWs s)).take maxContentLength ∧
      (cleanContent s).all (fun c => decide (c ≠ '\n')) = true := by
  refine ⟨cleanContent_eq s, ?_⟩
  exact List.all_eq_true.mpr
    (fun c hc => by simpa using cleanContent_no_newline s c hc)

/-- C5 (amended): applying `cleanContent` twice is the same as trimming its
one-application output — so the cleaner is idempotent exactly when its
output does not end in a space, and truncation at the 15000-character limit
can cut directly after a space and break idempotency. -/
theorem cleanContent_twice_eq_trim (s : List Char) :
    cleanContent (cleanContent s) = jsTrim (cleanContent s) :=
  cleanContent_idem_to_trim s

/-- A cleaned prefix of 14999 letters followed by a space and one more
letter: its cleaned form is 15000 characters ending in the space the
truncation exposes. -/
def longRun : List Char := List.replicate 14999 'a' ++ [' ', 'b']

theorem collapseGo_false_replicate (n : Nat) (l : List Char) :
    collapseGo false (List.replicate n 'a' ++ l) =
      List.replicate n 'a' ++ collapseGo false l := by
  induction n with
  | zero => rfl
  | succ k ih =>
    rw [List.replicate_succ, List.cons_append,
      collapseGo_false_cons_not_ws _ _ (by decide), ih, List.cons_append]

theorem collapseWs_longRun : collapseWs longRun = longRun := by
  show collapseGo false (List.replicate 14999 'a' ++ [' ', 'b']) = _
  rw [collapseGo_false_replicate]
  rfl

theorem jsTrim_longRun : jsTrim longRun = longRun := by
  unfold jsTrim
  have h1 : longRun.dropWhile jsIsWs = longRun := by
    show (List.replicate 14999 'a' ++ [' ', 'b']).dropWhile jsIsWs = _
    rw [show (14999 : Nat) = 14998 + 1 from rfl, List.replicate_succ,
      List.cons_append, List.dropWhile_cons_of_neg (by decide)]
    rfl
  rw [h1]
  unfold dropTrailingWs
  have h2 : longRun.reverse = 'b' :: ' ' :: List.replicate 14999 'a' := by
    show (List.replicate 14999 'a' ++ [' ', 'b']).reverse = _
    rw [List.reverse_append, List.reverse_replicate]
    rfl
  rw [h2, List.dropWhile_cons_of_neg (by decide), ← h2, List.reverse_reverse]

theorem cleanContent_longRun :
    cleanContent longRun = List.replicate 14999 'a' ++ [' '] := by
  rw [cleanContent_eq, collapseWs_longRun, jsTrim_longRun]
  show (List.replicate 14999 'a' ++ [' ', 'b']).take maxContentLength = _
  rw [List.take_append_eq_append_take, List.length_replicate,
    List.take_of_length_le (by rw [List.length_replicate]; norm_num [maxContentLength])]
  have hone : maxContentLength - 14999 = 1 := by norm_num [maxContentLength]
  rw [hone]
  rfl

theorem cleanContent_cleanContent_longRun :
    cleanContent (cleanContent longRun) = List.replicate 14999 'a' := by
  rw [cleanContent_longRun, cleanContent_eq]
  have hc : collapseWs (List.replicate 14999 'a' ++ [' ']) =
      List.replicate 14999 'a' ++ [' '] := by
    show collapseGo false _ = _
    rw [collapseGo_false_replicate]
    rfl
  rw [hc]
  have ht : jsTrim (List.replicate 14999 'a' ++ [' ']) =
      List.replicate 14999 'a' := by
    unfold jsTrim
    have h1 : (List.replicate 14999 'a' ++ [' ']).dropWhile jsIsWs =
        List.replicate 14999 'a' ++ [' '] := by
      rw [show (14999 : Nat) = 14998 + 1 from rfl, List.replicate_succ,
        List.cons_append, List.dropWhile_cons_of_neg (by decide)]
      try rfl
    rw [h1]
    unfold dropTrailingWs
    have h2 : (List.replicate 14999 'a' ++ [' ']).reverse =
        ' ' :: List.replicate 14999 'a' := by
      rw [List.reverse_append, List.reverse_replicate]
      rfl
    rw [h2, List.dropWhile_cons_of_pos (by decide)]
    rw [show (14999 : Nat) = 14998 + 1 from rfl, List.replicate_succ,
      List.dropWhile_cons_of_neg (by decide), ← List.replicate_succ,
      List.reverse_replicate]
  rw [ht, List.take_of_length_le
    (by rw [List.length_replicate]; norm_num [maxContentLength])]

/-- C5 counterexample: on the concrete 15001-character input of 14999
letters, a space, and a letter, cleaning once truncates to 15000 characters
ending in the space, and cleaning a second time trims that space away, so
`cleanContent` applied twice differs from `cleanContent` applied once. -/
theorem cleanContent_not_idempotent_cx :
    cleanContent (cleanContent longRun) ≠ cleanContent longRun := by
  rw [cleanContent_cleanContent_longRun, cleanContent_longRun]
  intro h
  have hlen := congrArg List.length h
  rw [List.length_replicate, List.length_append, List.length_replicate,
    List.length_cons, List.length_nil] at hlen
  omega

/-- Exactly one of: non-empty content with no error, or empty content with
the error field set. -/
def contentErrorExclusive (r : ExtractedWeChatArticle) : Prop :=
  (r.content ≠ [] ∧ r.error = none) ∨ (r.content = [] ∧ r.error.isSome = true)

theorem extractSingle_ok_eq (url : List Char) (currentYear : Nat) (page : Page) :
    extractSingleWeChatArticle url currentYear (.ok page) =
      if (extractContent page.contentCandidates).isEmpty ||
          decide ((extractContent page.contentCandidates).length < 50) then
        { url, title := "提取失败".data, content := [], author := none,
          publishDate := none, error := some "文章内容提取失败或内容过短".data }
      else
        { url,
          title := if (extractTitle page.titleTexts).isEmpty then "无标题".data
                   else extractTitle page.titleTexts,
          content := cleanContent (extractContent page.contentCandidates),
          author := some (extractAuthor page.authorTexts),
          publishDate := extractPublishDate currentYear page.dateTexts,
          error := none } := rfl

theorem extractSingle_exclusive (url : List Char) (currentYear : Nat)
    (fetched : Except (Option (List Char)) Page) :
    contentErrorExclusive (extractSingleWeChatArticle url currentYear fetched) := by
  cases fetched with
  | error e => exact Or.inr ⟨rfl, rfl⟩
  | ok page =>
    rw [extractSingle_ok_eq]
    by_cases hcond : ((extractContent page.contentCandidates).isEmpty ||
        decide ((extractContent page.contentCandidates).length < 50)) = true
    · rw [if_pos hcond]
      exact Or.inr ⟨rfl, rfl⟩
    · rw [if_neg hcond]
      refine Or.inl ⟨?_, rfl⟩
      have hne : ¬(extractContent page.contentCandidates).isEmpty = true := by
        intro h
        exact hcond (by rw [h]; rfl)
      rcases extractContent_shape page.contentCandidates with h | ⟨c, t, hct, hc⟩
      · rw [h] at hne
        exact absurd rfl hne
      · show cleanContent (extractContent page.contentCandidates) ≠ []
        rw [hct]
        exact cleanContent_ne_nil c t hc

/-- C2: every extraction result of the page extractor — from
`extractSingleWeChatArticle` directly, and every element of the list
`extractBatchWeChatArticles` returns when its fulfilled promises carry
`extractSingleWeChatArticle` results — has exactly one of: non-empty content,
or the error field set; never both, never neither. -/
theorem extraction_content_error_dichotomy :
    (∀ url currentYear fetched,
      contentErrorExclusive (extractSingleWeChatArticle url currentYear fetched)) ∧
    (∀ (settle : List Char → SettledResult) (urls : List (List Char)),
      (∀ u a, settle u = .fulfilled a →
        ∃ currentYear fetched, a = extractSingleWeChatArticle u currentYear fetched) →
      ∀ r ∈ extractBatchWeChatArticles settle urls, contentErrorExclusive r) := by
  refine ⟨extractSingle_exclusive, ?_⟩
  intro settle urls hsettle r hr
  rw [extractBatch_spec] at hr
  rcases List.mem_append.mp hr with hinv | hval
  · rcases List.mem_map.mp hinv with ⟨u, _, heq⟩
    rw [← heq]
    exact Or.inr ⟨rfl, rfl⟩
  · rcases List.mem_map.mp hval with ⟨u, _, heq⟩
    rw [← heq]
    cases hsu : settle u with
    | rejected m => exact Or.inr ⟨rfl, rfl⟩
    | fulfilled a =>
      rcases hsettle u a hsu with ⟨cy, fetched, ha⟩
      show contentErrorExclusive a
      rw [ha]
      exact extractSingle_exclusive u cy fetched

/-- Witness for C2 at concrete inputs: a thrown fetch on the single-article
path, and a batch of one syntactically invalid URL whose settle function
wraps an extraction result. -/
theorem extraction_content_error_dichotomy_witness :
    contentErrorExclusive
        (extractSingleWeChatArticle "u".data 2025 (.error (some "boom".data))) ∧
      ∀ r ∈ extractBatchWeChatArticles
          (fun v => .fulfilled (extractSingleWeChatArticle v 2025 (.error none)))
          ["x".data], contentErrorExclusive r :=
  ⟨extraction_content_error_dichotomy.1 "u".data 2025 (.error (some "boom".data)),
   extraction_content_error_dichotomy.2
     (fun v => .fulfilled (extractSingleWeChatArticle v 2025 (.error none)))
     ["x".data]
     (fun u a ha => ⟨2025, .error none, by
        have := congrArg (fun s => match s with
          | SettledResult.fulfilled x => x
          | SettledResult.rejected _ => a) ha
        simpa using this.symm⟩)⟩

/-- A page whose only paragraph is a 50-character text made of two letters
separated by 48 spaces: its raw extracted content passes the 50-character
check, but its cleaned content is 3 characters long. -/
def shortAfterCleaningPage : Page :=
  { titleTexts := [], authorTexts := [], dateTexts := [],
    contentCandidates :=
      [some { paraTexts := [['a'] ++ List.replicate 48 ' ' ++ ['b']],
              fullText := [] }] }

/-- C3 counterexample: the 50-character minimum is checked on the raw
extracted content before cleaning, so the extractor can return a success
result (no error) whose content is far shorter than 50 characters. -/
theorem success_content_shorter_than_50_cx :
    (extractSingleWeChatArticle "u".data 2025
        (.ok shortAfterCleaningPage)).error = none ∧
      (extractSingleWeChatArticle "u".data 2025
        (.ok shortAfterCleaningPage)).content.length < 50 := by
  decide

/-- C3 (amended): `extractSingleWeChatArticle` never throws — a fetch/parse
exception becomes a failure result with empty content and the thrown
message, raw extracted content shorter than 50 characters becomes the fixed
descriptive failure, and otherwise the result carries no error and stores
the cleaned content of a raw extraction that was at least 50 characters
long; the cleaned content itself may end up shorter than 50 characters. -/
theorem extractSingle_error_conversion (url : List Char) (currentYear : Nat) :
    (∀ e, extractSingleWeChatArticle url currentYear (.error e) =
      { url, title := "提取失败".data, content := [], author := none,
        publishDate := none, error := some (errToMsg e) }) ∧
    (∀ page, (extractContent page.contentCandidates).length < 50 →
      extractSingleWeChatArticle url currentYear (.ok page) =
        { url, title := "提取失败".data, content := [], author := none,
          publishDate := none,
          error := some "文章内容提取失败或内容过短".data }) ∧
    (∀ page, 50 ≤ (extractContent page.contentCandidates).length →
      (extractSingleWeChatArticle url currentYear (.ok page)).error = none ∧
      (extractSingleWeChatArticle url currentYear (.ok page)).content =
        cleanContent (extractContent page.contentCandidates)) := by
  refine ⟨fun e => rfl, ?_, ?_⟩
  · intro page hlt
    rw [extractSingle_ok_eq, if_pos]
    rw [Bool.or_eq_true]
    exact Or.inr (decide_eq_true hlt)
  · intro page hge
    have hcond : ((extractContent page.contentCandidates).isEmpty ||
        decide ((extractContent page.contentCandidates).length < 50)) = false := by
      rw [Bool.or_eq_false_iff]
      constructor
      · cases hx : extractContent page.contentCandidates with
        | nil => rw [hx] at hge; simp at hge
        | cons c t => rfl
      · exact decide_eq_false (by omega)
    rw [extractSingle_ok_eq, if_neg (by rw [hcond]; exact Bool.false_ne_true)]
    exact ⟨rfl, rfl⟩

/-- A page with a single 60-letter paragraph. -/
def longContentPage : Page :=
  { titleTexts := [], authorTexts := [], dateTexts := [],
    contentCandidates :=
      [some { paraTexts := [List.replicate 60 'a'], fullText := [] }] }

/-- Witness for C3 (amended) at concrete pages: a short-content page takes
the descriptive-failure branch, and a 60-character page takes the success
branch. -/
theorem extractSingle_error_conversion_witness :
    ((extractContent (Page.contentCandidates
        { titleTexts := [], authorTexts := [], dateTexts := [],
          contentCandidates := [none] })).length < 50 ∧
      extractSingleWeChatArticle "u".data 2025
          (.ok { titleTexts := [], authorTexts := [], dateTexts := [],
                 contentCandidates := [none] }) =
        { url := "u".data, title := "提取失败".data, content := [],
          author := none, publishDate := none,
          error := some "文章内容提取失败或内容过短".data }) ∧
    (50 ≤ (extractContent longContentPage.contentCandidates).length ∧
      (extractSingleWeChatArticle "u".data 2025 (.ok longContentPage)).error =
          none ∧
        (extractSingleWeChatArticle "u".data 2025 (.ok longContentPage)).content =
          cleanContent (extractContent longContentPage.contentCandidates)) :=
  ⟨⟨by decide,
    (extractSingle_error_conversion "u".data 2025).2.1 _ (by decide)⟩,
   ⟨by decide,
    (extractSingle_error_conversion "u".data 2025).2.2 longContentPage (by decide)⟩⟩

/-- C1: for every URL list that passes validation (non-empty, at most 20
entries) the route answers with a report whose counts satisfy
`successCount + failCount = totalProcessed = number of input URLs`; the
batch fetcher contributes exactly one result per input URL and the
per-article loop classifies each as exactly one of success or failure. -/
theorem batch_report_counts_consistent (settle : List Char → SettledResult)
    (summarize : ExtractedWeChatArticle → Except (Option (List Char)) SummaryResult)
    (urls : List (List Char)) (hne : urls ≠ []) (hcap : urls.length ≤ 20) :
    ∃ resp, batchSummarizePost settle summarize urls = .ok resp ∧
      resp.successCount + resp.failCount = resp.totalProcessed ∧
      resp.totalProcessed = urls.length ∧
      (extractBatchWeChatArticles settle urls).length = urls.length ∧
      resp.results.length = urls.length := by
  have hempty : urls.isEmpty = false := by
    cases urls with
    | nil => exact absurd rfl hne
    | cons a t => rfl
  have hpost : batchSummarizePost settle summarize urls =
      .ok { success := true,
            results := (processArticles summarize
              (extractBatchWeChatArticles settle urls)).1,
            totalProcessed := urls.length,
            successCount := (processArticles summarize
              (extractBatchWeChatArticles settle urls)).2.1,
            failCount := (processArticles summarize
              (extractBatchWeChatArticles settle urls)).2.2 } := by
    unfold batchSummarizePost
    rw [if_neg (by rw [hempty]; exact Bool.false_ne_true), if_neg (by omega)]
  refine ⟨_, hpost, ?_, rfl, extractBatch_length settle urls, ?_⟩
  · show (processArticles summarize (extractBatchWeChatArticles settle urls)).2.1 +
        (processArticles summarize (extractBatchWeChatArticles settle urls)).2.2 =
        urls.length
    rw [(processArticles_spec summarize _).1, extractBatch_length]
  · show (processArticles summarize (extractBatchWeChatArticles settle urls)).1.length =
        urls.length
    rw [(processArticles_spec summarize _).2, extractBatch_length]

/-- Witness for C1: one malformed URL, an always-rejecting settle function,
and an always-succeeding summarizer. -/
theorem batch_report_counts_consistent_witness :
    (["x".data] : List (List Char)) ≠ [] ∧
      (["x".data] : List (List Char)).length ≤ 20 ∧
      ∃ resp, batchSummarizePost (fun _ => .rejected none)
          (fun _ => .ok { content := [], keyPoints := [], sentiment := [],
                          category := [] }) ["x".data] = .ok resp ∧
        resp.successCount + resp.failCount = resp.totalProcessed ∧
        resp.totalProcessed = (["x".data] : List (List Char)).length ∧
        (extractBatchWeChatArticles (fun _ => .rejected none) ["x".data]).length =
          (["x".data] : List (List Char)).length ∧
        resp.results.length = (["x".data] : List (List Char)).length :=
  ⟨by decide, by decide,
   batch_report_counts_consistent (fun _ => .rejected none)
     (fun _ => .ok { content := [], keyPoints := [], sentiment := [],
                     category := [] })
     ["x".data] (by decide) (by decide)⟩

/-- C7: whenever no brace-delimited JSON object is found in the raw LLM
response, or JSON parsing of the found candidate throws, the response parser
returns — without throwing — the fully populated fallback result: the first
three non-blank lines joined and truncated to about 200 characters as the
summary, the same lines as key points, neutral sentiment, and the
uncategorized label. -/
theorem summarizer_fallback_on_unparseable
    (jsonParse : List Char → Option ParsedJson) (response : List Char)
    (h : braceMatch response = none ∨
      ∀ m, braceMatch response = some m → jsonParse m = none) :
    parseSummaryResponse jsonParse response = fallbackParsing response ∧
      (parseSummaryResponse jsonParse response).content =
        (joinWithSpace (((splitOnNewline response).filter
          (fun line => !(jsTrim line).isEmpty)).take 3)).take 200 ++ "...".data ∧
      (parseSummaryResponse jsonParse response).keyPoints =
        ((splitOnNewline response).filter
          (fun line => !(jsTrim line).isEmpty)).take 3 ∧
      (parseSummaryResponse jsonParse response).sentiment = "neutral".data ∧
      (parseSummaryResponse jsonParse response).category = "未分类".data := by
  have heq : parseSummaryResponse jsonParse response = fallbackParsing response := by
    unfold parseSummaryResponse
    rcases h with h | h
    · rw [h]
    · cases hb : braceMatch response with
      | none => rfl
      | some m =>
        have hm := h m hb
        simp only [hm]
  refine ⟨heq, ?_, ?_, ?_, ?_⟩ <;> rw [heq] <;> rfl

/-- Witness for C7: a two-line response with no braces and a parser that
always throws. -/
theorem summarizer_fallback_on_unparseable_witness :
    braceMatch "hello\nworld".data = none ∧
      parseSummaryResponse (fun _ => none) "hello\nworld".data =
        fallbackParsing "hello\nworld".data ∧
      (parseSummaryResponse (fun _ => none) "hello\nworld".data).content =
        (joinWithSpace (((splitOnNewline "hello\nworld".data).filter
          (fun line => !(jsTrim line).isEmpty)).take 3)).take 200 ++ "...".data ∧
      (parseSummaryResponse (fun _ => none) "hello\nworld".data).sentiment =
        "neutral".data :=
  ⟨by decide,
   (summarizer_fallback_on_unparseable (fun _ => none) "hello\nworld".data
     (Or.inl (by decide))).1,
   (summarizer_fallback_on_unparseable (fun _ => none) "hello\nworld".data
     (Or.inl (by decide))).2.1,
   (summarizer_fallback_on_unparseable (fun _ => none) "hello\nworld".data
     (Or.inl (by decide))).2.2.2.1⟩

/-- The article the C10 discussion instantiates: extraction succeeded but
produced an empty author and no publish date. -/
def emptyAuthorArticle : ExtractedWeChatArticle :=
  { url := "https://mp.weixin.qq.com/s/x".data, title := "t".data,
    content := "c".data, author := some [], publishDate := none,
    error := none }

/-- C10 counterexample: when the request supplies an explicitly empty
account name (the route's destructuring default applies only to an absent
field), an article extracted with an empty author is stored with an empty
author — the claim's "always … non-empty author" fails. -/
theorem stored_author_can_be_empty_cx :
    (articleUpsertUpdate emptyAuthorArticle (effectiveAccountName (some []))
        1 ⟨2025, 0, 1⟩).author = [] ∧
      (articleUpsertCreate emptyAuthorArticle (effectiveAccountName (some []))
        1 ⟨2025, 0, 1⟩).author = [] := by
  decide

/-- C10 (amended): both branches of the article upsert build identical rows;
the stored publish date is always set — the extraction's date when present,
else the current time — and the stored author is the extracted author when
non-empty, else the account label, hence non-empty whenever the label is
non-empty (the label defaults to the batch-import name only when the field
is absent, and may be supplied empty). -/
theorem article_upsert_default_fields (article : ExtractedWeChatArticle)
    (accountName : List Char) (accountId : Nat) (now : JsDate) :
    articleUpsertUpdate article accountName accountId now =
      articleUpsertCreate article accountName accountId now ∧
    (articleUpsertUpdate article accountName accountId now).publishDate =
      article.publishDate.getD now ∧
    (articleUpsertUpdate article accountName accountId now).author =
      jsOrDefault article.author accountName ∧
    (accountName ≠ [] →
      (articleUpsertUpdate article accountName accountId now).author ≠ []) := by
  refine ⟨rfl, rfl, rfl, ?_⟩
  intro hacc
  show jsOrDefault article.author accountName ≠ []
  unfold jsOrDefault
  cases article.author with
  | none => exact hacc
  | some a =>
    show (if a.isEmpty = true then accountName else a) ≠ []
    by_cases ha : a.isEmpty = true
    · rw [if_pos ha]
      exact hacc
    · rw [if_neg ha]
      intro h
      exact ha (by rw [h]; rfl)

/-- Witness for C10 (amended): the default batch-import label is non-empty,
so the stored author is non-empty even for an empty extracted author. -/
theorem article_upsert_default_fields_witness :
    ("批量导入".data : List Char) ≠ [] ∧
      (articleUpsertUpdate emptyAuthorArticle "批量导入".data 1
        ⟨2025, 0, 1⟩).author ≠ [] :=
  ⟨by decide,
   (article_upsert_default_fields emptyAuthorArticle "批量导入".data 1
     ⟨2025, 0, 1⟩).2.2.2 (by decide)⟩

end WeChatSummarizer
